import Mathlib

/-!
Verification of the vergessen spaced-repetition program (imipolexg/vergessen).

Shallow embedding notes:
* Go `float64` arithmetic is modelled exactly over `ℚ`.  Every constant in the
  scheduler (1.75, 0.8, 0.28, 0.02, 1.3) is a short decimal, so the spec's
  reference values (1.61, 6.44, 9.66) are exact in `ℚ`.
* Go `time.Time` is modelled as a rational number of seconds since the epoch
  (`time.Time` stores non-negative nanoseconds, so `Unix()` is the floor).
  A day is 86400 seconds; `time.Now()` becomes an explicit `now` parameter.
* Go `int` is modelled as `ℤ` (no claim exercises 64-bit overflow); the
  repetition counter, which only ever counts up from 0, is modelled as `ℕ`.
* The SQLite store is modelled as three lists of rows kept in ascending
  rowid order (rows are only ever inserted with a fresh id one larger than
  the previous maximum, so insertion order and rowid order coincide, and
  `order by id` returns the rows as listed).
* `database/sql` semantics: `DB.Query` returns a row iterator; a query whose
  result set is empty yields a nil error (`sql.ErrNoRows` is produced only by
  `Row.Scan`, which this program never uses).  The model therefore makes the
  row queries on an existing store always succeed, which keeps the program's
  `err == sql.ErrNoRows` branches structurally present but unreachable,
  exactly as they are in the compiled Go.
-/

namespace Vergessen

/-- Type `Card` from deck.go: id, prompt, answer, reps, nextrep plus the two
history slices (indexed by rep - 1). -/
structure Card where
  Id : Int
  Prompt : String
  Answer : String
  Reps : Nat
  NextRep : Rat
  EFs : List Rat
  Hardnesses : List Int
deriving Repr, DecidableEq

/-- Type `Deck` from deck.go.  The `*sql.DB` handle carries no observable state
beyond the path it was opened on, so it is omitted. -/
structure Deck where
  Path : String
  Cards : List Card
  Dirty : Bool
deriving Repr, DecidableEq

/-- Go declaration `var defaultEF float64 = 1.75` (written as a fraction: decimal literals
on `ℚ` do not reduce in the kernel). -/
def defaultEF : Rat := 7 / 4

/-- Function `NewCard` from deck.go: zero id, zero reps, `NextRep = time.Now()`,
empty histories. -/
def NewCard (now : Rat) (prompt answer : String) : Card :=
  { Id := 0
    Prompt := prompt
    Answer := answer
    Reps := 0
    NextRep := now
    EFs := []
    Hardnesses := [] }

/-- Function `calcEf` from deck.go:
`ef := efprime - 0.8 + 0.28*float64(hardness) - 0.02*float64(hardness*hardness)`,
floor-clamped at 1.3. -/
def calcEf (efprime : Rat) (hardness : Int) : Rat :=
  -- 0.8 = 8/10, 0.28 = 28/100, 0.02 = 2/100, 1.3 = 13/10
  let ef := efprime - 8 / 10 + 28 / 100 * (hardness : Rat)
    - 2 / 100 * ((hardness * hardness : Int) : Rat)
  if ef < 13 / 10 then 13 / 10 else ef

/-- Method `(c *Card) interval(n int)` from deck.go:
`1.0` for n = 1, `6.0` for n = 2, otherwise `interval(n-1) * c.EFs[n-1]`.
The Go function never returns for `n <= 0` (it recurses past every base
case); reachable calls always have `n = c.Reps >= 3`, and the model returns
0 on the unreachable argument. -/
def Card.interval (c : Card) : Nat → Rat
  | 0 => 0
  | 1 => 1
  | 2 => 6
  | n + 3 => c.interval (n + 2) * c.EFs.getD (n + 2) 0

/-- Method `(c *Card) CalcNextRep(hardness int)` from src/deck/deck.go (the variant
without the hardness-5 special case).  Increments `Reps`, appends the
hardness, then either schedules 1 day (first rep), 4 days (second rep;
the code's comment notes SM-2 says 6 but does 4), or appends
`calcEf(c.EFs[c.Reps-2], c.Hardnesses[c.Reps-1])` and schedules
`c.interval(c.Reps)` days.  Out-of-range slice indexing (impossible while
the history-length invariant holds) panics in Go and defaults to 0 here. -/
def Card.CalcNextRep (c : Card) (now : Rat) (hardness : Int) : Card :=
  let reps := c.Reps + 1
  let hardnesses := c.Hardnesses ++ [hardness]
  if reps = 1 then
    { c with Reps := reps, Hardnesses := hardnesses,
             NextRep := now + 86400, EFs := c.EFs ++ [defaultEF] }
  else if reps = 2 then
    { c with Reps := reps, Hardnesses := hardnesses,
             NextRep := now + 86400 * 4, EFs := c.EFs ++ [defaultEF] }
  else
    let efs := c.EFs ++ [calcEf (c.EFs.getD (reps - 2) 0) (hardnesses.getD (reps - 1) 0)]
    let c' := { c with Reps := reps, Hardnesses := hardnesses, EFs := efs }
    { c' with NextRep := now + 86400 * c'.interval reps }

/-- Method `(c *Card) CalcNextRep(hardness int)` from src/unnamed/part_000 (also in
src/unnamed/part_001): identical to the deck.go variant except that when
`hardness == 5` it sets `c.NextRep = time.Now()` instead of adding the
computed interval.  The easiness append happens before that branch. -/
def Card.CalcNextRepV2 (c : Card) (now : Rat) (hardness : Int) : Card :=
  let reps := c.Reps + 1
  let hardnesses := c.Hardnesses ++ [hardness]
  if reps = 1 then
    { c with Reps := reps, Hardnesses := hardnesses,
             NextRep := now + 86400, EFs := c.EFs ++ [defaultEF] }
  else if reps = 2 then
    { c with Reps := reps, Hardnesses := hardnesses,
             NextRep := now + 86400 * 4, EFs := c.EFs ++ [defaultEF] }
  else
    let efs := c.EFs ++ [calcEf (c.EFs.getD (reps - 2) 0) (hardnesses.getD (reps - 1) 0)]
    let c' := { c with Reps := reps, Hardnesses := hardnesses, EFs := efs }
    if hardness = 5 then
      { c' with NextRep := now }
    else
      { c' with NextRep := now + 86400 * c'.interval reps }

/-- Method `(d *Deck) AddCard(card *Card)` from deck.go: the new card's id is the
last card's id + 1 (0 on an empty deck), the card is appended, and the deck
is marked dirty. -/
def Deck.AddCard (d : Deck) (card : Card) : Deck :=
  let card :=
    match d.Cards.getLast? with
    | some last => { card with Id := last.Id + 1 }
    | none => { card with Id := 0 }
  { d with Cards := d.Cards ++ [card], Dirty := true }

/-- The search-and-remove loop inside `DeleteCard`: drop the first card whose
id matches, returning `none` when no card matches. -/
def deleteFirst (id : Int) : List Card → Option (List Card)
  | [] => none
  | c :: cs =>
    if c.Id = id then some cs
    else (deleteFirst id cs).map (c :: ·)

/-- Method `(d *Deck) DeleteCard(id int)` from deck.go: remove the first card with a
matching id and mark the deck dirty; if no card matches, the loop falls
through and the deck is untouched. -/
def Deck.DeleteCard (d : Deck) (id : Int) : Deck :=
  match deleteFirst id d.Cards with
  | some cs => { d with Cards := cs, Dirty := true }
  | none => d

/-! ### The SQLite store

One row of `create table cards (id integer not null primary key, prompt text,
answer text, reps integer, nextrep integer)`; `nextrep` is epoch seconds. -/

/-- A row of the `cards` table. -/
structure CardRow where
  id : Int
  prompt : String
  answer : String
  reps : Nat
  nextrep : Int
deriving Repr, DecidableEq

/-- A row of the `efs` table (`val` = `ef : float64`) or of the `hardnesses`
table (`val` = `hardness : integer`); both have the shape
`(id integer not null primary key, card_id integer not null, val)`. -/
structure HistRow (α : Type) where
  id : Int
  card_id : Int
  val : α
deriving Repr, DecidableEq

/-- The durable deck database: the three tables, each kept in ascending
rowid order (rows are only inserted with a fresh id `max + 1`). -/
structure Store where
  cards : List CardRow
  efs : List (HistRow Rat)
  hardnesses : List (HistRow Int)
deriving Repr, DecidableEq

/-- The schema right after `db.Exec(createDeckStmt)`: three empty tables. -/
def emptyStore : Store := ⟨[], [], []⟩

/-- Statement `insert into cards (prompt, answer, reps, nextrep) values (...)` plus
`res.LastInsertId()`: SQLite assigns the fresh rowid `max + 1`, which on a
store only ever built by appending from empty is `length + 1`. -/
def Store.insertCard (st : Store) (prompt answer : String) (reps : Nat)
    (nextrep : Int) : Store × Int :=
  let id : Int := st.cards.length + 1
  ({ st with cards := st.cards ++ [⟨id, prompt, answer, reps, nextrep⟩] }, id)

/-- Statement `insert into efs (card_id, ef) values (...)`. -/
def Store.insertEf (st : Store) (cardId : Int) (ef : Rat) : Store :=
  { st with efs := st.efs ++ [⟨(st.efs.length : Int) + 1, cardId, ef⟩] }

/-- Statement `insert into hardnesses (card_id, hardness) values (...)`. -/
def Store.insertHardness (st : Store) (cardId : Int) (hardness : Int) : Store :=
  { st with hardnesses :=
      st.hardnesses ++ [⟨(st.hardnesses.length : Int) + 1, cardId, hardness⟩] }

/-- The body of `Sync`'s loop for one card: insert the card row (storing
`card.NextRep.Unix()`, the floor in seconds), then one `efs` row per
easiness value and one `hardnesses` row per hardness value, all tagged with
the card row's `LastInsertId`. -/
def syncCard (st : Store) (c : Card) : Store :=
  let p := st.insertCard c.Prompt c.Answer c.Reps c.NextRep.floor
  let st1 := c.EFs.foldl (fun s ef => s.insertEf p.2 ef) p.1
  c.Hardnesses.foldl (fun s h => s.insertHardness p.2 h) st1

/-- The store produced by `Sync`'s write phase when every operation
succeeds: the whole card list written into a fresh schema. -/
def syncStore (cs : List Card) : Store := cs.foldl syncCard emptyStore

/-! ### Loading a deck (`OpenDeck`) -/

/-- The error values `database/sql` can hand back from a query. -/
inductive SqlError where
  | noRows
  | other (msg : String)
deriving Repr, DecidableEq

/-- Query `select * from cards order by nextrep`.  Modelled as a stable sort on the
stored `nextrep`; SQLite leaves the order of ties unspecified and the model
fixes the scan order (rowid order) as the tie-break. -/
def queryCards (st : Store) : List CardRow :=
  List.insertionSort (fun a b => a.nextrep ≤ b.nextrep) st.cards

/-- Query `select val from <table> where card_id = $1 order by id`.  The table's
rows are listed in ascending rowid order, so `order by id` returns the
filtered rows as listed.  `DB.Query` yields `sql.ErrNoRows` for no input —
an empty result set is a success with an empty iterator — so on an existing
store the result is always `Except.ok`. -/
def queryHist {α : Type} (rows : List (HistRow α)) (cardId : Int) :
    Except SqlError (List α) :=
  .ok ((rows.filter (fun r => r.card_id = cardId)).map (·.val))

/-- The body of `OpenDeck`'s row loop for one `cards` row, up to the
`deck.AddCard(card)` call: rebuild the card (`NewCard` then overwriting id,
reps and `time.Unix(nextrep, 0)`), then read both histories.  The
`err == sql.ErrNoRows && card.Reps > 0` corruption checks are kept exactly
as written in the Go even though `queryHist` never produces that error. -/
def loadCard (st : Store) (row : CardRow) : Except String Card :=
  let card := { NewCard (row.nextrep : Rat) row.prompt row.answer with
                Id := row.id, Reps := row.reps, NextRep := (row.nextrep : Rat) }
  match queryHist st.efs row.id with
  | .error e =>
    if e = SqlError.noRows ∧ row.reps > 0 then
      .error "no easiness factors for this card!"
    else if e ≠ SqlError.noRows then
      .error "efs query failed"
    else
      -- Go would iterate the rows of a failed query here (a nil
      -- dereference); the branch is unreachable.
      .error "invalid efs rows"
  | .ok efs =>
    let card := { card with EFs := efs }
    match queryHist st.hardnesses row.id with
    | .error e =>
      if e = SqlError.noRows ∧ row.reps > 0 then
        .error "no hardness factors for this card!"
      else
        -- No `err != nil && err != sql.ErrNoRows` guard exists for the
        -- hardness query in the Go; it falls through to iterating the
        -- rows.  Unreachable either way.
        .error "invalid hardness rows"
    | .ok hardnesses =>
      .ok { card with Hardnesses := hardnesses }

/-- The `OpenDeck` row loop: load each `cards` row and hand the rebuilt card to
`deck.AddCard` (which overwrites its id). -/
def loadCards (st : Store) (d : Deck) : List CardRow → Except String Deck
  | [] => .ok d
  | row :: rest =>
    match loadCard st row with
    | .error e => .error e
    | .ok card => loadCards st (d.AddCard card) rest

/-- Function `OpenDeck` on an existing database file: query the cards ordered by
`nextrep`, load each one, and finally reset `deck.Dirty = false`. -/
def openStore (path : String) (st : Store) : Except String Deck :=
  match loadCards st { Path := path, Cards := [], Dirty := false } (queryCards st) with
  | .error e => .error e
  | .ok d => .ok { d with Dirty := false }

/-! ### The filesystem level (`OpenDeck` / `Sync` on files) -/

/-- The filesystem: a deck database per path. -/
def FSys : Type := String → Option Store

/-- Write (or overwrite) the store at a path. -/
def fsUpdate (fs : FSys) (path : String) (st : Store) : FSys :=
  fun q => if q = path then some st else fs q

/-- The `os.Remove` effect on the modelled filesystem. -/
def fsRemove (fs : FSys) (path : String) : FSys :=
  fun q => if q = path then none else fs q

/-- Function `OpenDeck(path)` from deck.go at the filesystem level.  When no database
exists at `path`, the `select` fails with "no such table: cards", the schema
is created and an empty, clean deck is returned; otherwise the deck is
loaded from the existing store. -/
def OpenDeck (fs : FSys) (path : String) : Except String Deck × FSys :=
  match fs path with
  | none =>
    (.ok { Path := path, Cards := [], Dirty := false }, fsUpdate fs path emptyStore)
  | some st => (openStore path st, fs)

/-! ### `Sync` with fault injection

Every fallible step of `Sync` (each `sql.Open`, `Exec`, `LastInsertId`,
`os.Remove`, `os.Rename`) consumes one entry of a `List Bool` fault oracle
(`true` = this step returns an error); an exhausted oracle means every
remaining step succeeds.  `o = []` is the fault-free run. -/

/-- Which step of `Sync` failed. -/
inductive SyncErr where
  | openDb
  | schema
  | insert
  | remove
  | rename
  | reopen
deriving Repr, DecidableEq

/-- Consume one oracle entry. -/
def opFails : List Bool → Bool × List Bool
  | [] => (false, [])
  | b :: bs => (b, bs)

/-- One of `Sync`'s inner insert loops (over `card.EFs` or
`card.Hardnesses`): each `db.Exec(insert...)` may fail, returning the store
written so far. -/
def insertHistList {α : Type} (ins : Store → Int → α → Store) (cardId : Int) :
    List Bool → Store → List α → Except (Store × List Bool) (Store × List Bool)
  | o, st, [] => .ok (st, o)
  | o, st, x :: xs =>
    let p := opFails o
    if p.1 then .error (st, p.2)
    else insertHistList ins cardId p.2 (ins st cardId x) xs

/-- The `Sync` write loop over `d.Cards`: insert the card row, take
`LastInsertId`, then write both history tables; any failure aborts with the
partially written store. -/
def writePhase : List Bool → Store → List Card →
    Except (Store × List Bool) (Store × List Bool)
  | o, st, [] => .ok (st, o)
  | o, st, c :: cs =>
    let p := opFails o
    if p.1 then .error (st, p.2)
    else
      let q := st.insertCard c.Prompt c.Answer c.Reps c.NextRep.floor
      let p2 := opFails p.2
      if p2.1 then .error (q.1, p2.2)
      else
        match insertHistList Store.insertEf q.2 p2.2 q.1 c.EFs with
        | .error r => .error r
        | .ok s2 =>
          match insertHistList Store.insertHardness q.2 s2.2 s2.1 c.Hardnesses with
          | .error r => .error r
          | .ok s3 => writePhase s3.2 s3.1 cs

/-- Method `(d *Deck) Sync()` from deck.go.  The whole deck is written to
`d.Path + ".sync"`; only after an error-free write phase is the original
removed and the temporary renamed into place (the code's XXX comment: a
crash between the two loses the deck).  `sql.Open` is lazy — the temporary
file appears once the schema `Exec` runs.  `os.Remove` also fails when no
file exists at `d.Path`.  Returns Go's `error`, the filesystem after, and
the deck after (`Dirty` cleared only on full success). -/
def sync (o : List Bool) (fs : FSys) (d : Deck) :
    Except SyncErr Unit × FSys × Deck :=
  let newPath := d.Path ++ ".sync"
  let p0 := opFails o
  if p0.1 then (.error .openDb, fs, d)
  else
    let p1 := opFails p0.2
    if p1.1 then (.error .schema, fs, d)
    else
      match writePhase p1.2 emptyStore d.Cards with
      | .error r => (.error .insert, fsUpdate fs newPath r.1, d)
      | .ok s =>
        let fs1 := fsUpdate fs newPath s.1
        let p2 := opFails s.2
        if p2.1 ∨ (fs1 d.Path).isNone then (.error .remove, fs1, d)
        else
          let fs2 := fsRemove fs1 d.Path
          let p3 := opFails p2.2
          if p3.1 then (.error .rename, fs2, d)
          else
            let fs3 := fsUpdate (fsRemove fs2 newPath) d.Path s.1
            let p4 := opFails p3.2
            if p4.1 then (.error .reopen, fs3, d)
            else (.ok (), fs3, { d with Dirty := false })

/-! ### Derived forms used to state and prove the claims -/

/-- A card with its id erased (ids are reassigned by `AddCard` on load). -/
def stripId (c : Card) : Card := { c with Id := 0 }

/-- What a card looks like after a store round trip, ids aside: `nextrep` is
persisted as whole epoch seconds. -/
def reload (c : Card) : Card := { c with NextRep := (c.NextRep.floor : Rat) }

/-- The `cards` rows `Sync` writes for a card list, with rowids from `k`. -/
def rowsFrom : Nat → List Card → List CardRow
  | _, [] => []
  | k, c :: cs => ⟨(k : Int), c.Prompt, c.Answer, c.Reps, c.NextRep.floor⟩ :: rowsFrom (k + 1) cs

/-- The history rows one card's values contribute: own ids `k+1, k+2, ...`,
all tagged `cardId`. -/
def histBlock {α : Type} (cardId : Int) : Nat → List α → List (HistRow α)
  | _, [] => []
  | k, x :: xs => ⟨(k : Int) + 1, cardId, x⟩ :: histBlock cardId (k + 1) xs

/-- The history rows a card list contributes to one of the two history
tables: card rowids from `cid + 1`, row ids from `k + 1`. -/
def histApp {α : Type} (sel : Card → List α) : Nat → Nat → List Card → List (HistRow α)
  | _, _, [] => []
  | cid, k, c :: cs =>
    histBlock ((cid : Int) + 1) k (sel c) ++ histApp sel (cid + 1) (k + (sel c).length) cs

/-- The ids `0, 1, ..., n-1` that `AddCard` hands out in load order. -/
def rangeIds (n : Nat) : List Int := (List.range n).map Int.ofNat

/-- The card `loadCard` actually produces (its error branches being
unreachable): the row's fields plus the two filtered histories. -/
def pureLoad (st : Store) (row : CardRow) : Card :=
  { Id := row.id
    Prompt := row.prompt
    Answer := row.answer
    Reps := row.reps
    NextRep := (row.nextrep : Rat)
    EFs := (st.efs.filter (fun r => r.card_id = row.id)).map (·.val)
    Hardnesses := (st.hardnesses.filter (fun r => r.card_id = row.id)).map (·.val) }

/-!
## Theorems

Helper lemmas first, then one theorem per claim (with a witness or a
counterexample where required).
-/

theorem getD_concat_length {α : Type} (l : List α) (a d : α) :
    (l ++ [a]).getD l.length d = a := by
  induction l with
  | nil => rfl
  | cons x xs ih => simp only [List.cons_append, List.length_cons, List.getD_cons_succ]; exact ih

theorem interval_congr : ∀ (n : Nat) (c₁ c₂ : Card), c₁.EFs = c₂.EFs →
    c₁.interval n = c₂.interval n
  | 0, _, _, _ => rfl
  | 1, _, _, _ => rfl
  | 2, _, _, _ => rfl
  | n + 3, c₁, c₂, h => by
    rw [Card.interval, Card.interval, interval_congr (n + 2) c₁ c₂ h, h]

theorem CalcNextRep_counts (c : Card) (now : Rat) (h : Int) :
    (c.CalcNextRep now h).Reps = c.Reps + 1 ∧
    (c.CalcNextRep now h).EFs.length = c.EFs.length + 1 ∧
    (c.CalcNextRep now h).Hardnesses.length = c.Hardnesses.length + 1 := by
  unfold Card.CalcNextRep
  dsimp only
  split_ifs <;> simp

theorem foldl_CalcNextRep_inv (steps : List (Rat × Int)) :
    ∀ c : Card, c.EFs.length = c.Reps → c.Hardnesses.length = c.Reps →
      (steps.foldl (fun a p => a.CalcNextRep p.1 p.2) c).EFs.length =
          (steps.foldl (fun a p => a.CalcNextRep p.1 p.2) c).Reps ∧
        (steps.foldl (fun a p => a.CalcNextRep p.1 p.2) c).Hardnesses.length =
          (steps.foldl (fun a p => a.CalcNextRep p.1 p.2) c).Reps := by
  induction steps with
  | nil => intro c h1 h2; exact ⟨h1, h2⟩
  | cons p rest ih =>
    intro c h1 h2
    simp only [List.foldl_cons]
    obtain ⟨hr, he, hh⟩ := CalcNextRep_counts c p.1 p.2
    exact ih _ (by rw [he, hr, h1]) (by rw [hh, hr, h2])

/-- C6: a fresh card has `repetitions = 0` and empty histories, and after any
sequence of `record_review` (`CalcNextRep`) calls both history lengths equal
the repetition count. -/
theorem claim6_history_lengths (prompt answer : String) (now0 : Rat)
    (steps : List (Rat × Int)) :
    (NewCard now0 prompt answer).Reps = 0 ∧
    (NewCard now0 prompt answer).EFs = [] ∧
    (NewCard now0 prompt answer).Hardnesses = [] ∧
    (steps.foldl (fun a p => a.CalcNextRep p.1 p.2) (NewCard now0 prompt answer)).EFs.length =
      (steps.foldl (fun a p => a.CalcNextRep p.1 p.2) (NewCard now0 prompt answer)).Reps ∧
    (steps.foldl (fun a p => a.CalcNextRep p.1 p.2) (NewCard now0 prompt answer)).Hardnesses.length =
      (steps.foldl (fun a p => a.CalcNextRep p.1 p.2) (NewCard now0 prompt answer)).Reps := by
  refine ⟨rfl, rfl, rfl, ?_⟩
  exact foldl_CalcNextRep_inv steps (NewCard now0 prompt answer) rfl rfl

theorem defaultEF_ge : (13 / 10 : Rat) ≤ defaultEF := by norm_num [defaultEF]

theorem calcEf_ge (e : Rat) (h : Int) : (13 / 10 : Rat) ≤ calcEf e h := by
  unfold calcEf
  dsimp only
  split_ifs with hlt
  · exact le_refl _
  · exact le_of_not_lt hlt

theorem CalcNextRep_EFs_lb (c : Card) (now : Rat) (h : Int)
    (hc : ∀ ef ∈ c.EFs, (13 / 10 : Rat) ≤ ef) :
    ∀ ef ∈ (c.CalcNextRep now h).EFs, (13 / 10 : Rat) ≤ ef := by
  unfold Card.CalcNextRep
  dsimp only
  split_ifs with h1 h2 <;> intro ef hef <;>
    simp only [List.mem_append, List.mem_singleton] at hef <;>
    rcases hef with hef | hef
  · exact hc ef hef
  · rw [hef]; exact defaultEF_ge
  · exact hc ef hef
  · rw [hef]; exact defaultEF_ge
  · exact hc ef hef
  · rw [hef]; exact calcEf_ge _ _

/-- C8: every value ever appended to the easiness history is at least 1.3 —
the first two reviews append the default 1.75 and later reviews append the
1.3-clamped `calcEf` — for arbitrary integer hardness inputs. -/
theorem claim8_easiness_floor (prompt answer : String) (now0 : Rat)
    (steps : List (Rat × Int)) :
    ∀ ef ∈ (steps.foldl (fun a p => a.CalcNextRep p.1 p.2) (NewCard now0 prompt answer)).EFs,
      (13 / 10 : Rat) ≤ ef := by
  have main : ∀ (l : List (Rat × Int)) (c : Card), (∀ ef ∈ c.EFs, (13 / 10 : Rat) ≤ ef) →
      ∀ ef ∈ (l.foldl (fun a p => a.CalcNextRep p.1 p.2) c).EFs, (13 / 10 : Rat) ≤ ef := by
    intro l
    induction l with
    | nil => intro c hc; exact hc
    | cons p rest ih =>
      intro c hc
      simp only [List.foldl_cons]
      exact ih _ (CalcNextRep_EFs_lb c p.1 p.2 hc)
  exact main steps (NewCard now0 prompt answer) (by intro ef hef; simp [NewCard] at hef)

/-- Witness for C8 at a concrete run: three reviews with hardness 1 produce
the easiness 1.3 (clamped), and the theorem applies to it. -/
theorem claim8_easiness_floor_witness : (13 / 10 : Rat) ≤ 13 / 10 :=
  claim8_easiness_floor "p" "a" 0 [(0, 1), (0, 1), (0, 1)] (13 / 10)
    (by norm_num [Card.CalcNextRep, NewCard, defaultEF, calcEf])

/-- C4: on a 3rd-or-later review (`repetitions ≥ 2` beforehand) with hardness
5, the part_000/part_001 `CalcNextRep` still computes and appends the new
easiness but sets `next_due = now`, bypassing the interval. -/
theorem claim4_hardness5_immediate (now : Rat) (c : Card)
    (h2 : 2 ≤ c.Reps) (hef : c.EFs.length = c.Reps) (hh : c.Hardnesses.length = c.Reps) :
    c.CalcNextRepV2 now 5 =
      { c with Reps := c.Reps + 1,
               Hardnesses := c.Hardnesses ++ [5],
               EFs := c.EFs ++ [calcEf (c.EFs.getD (c.Reps - 1) 0) 5],
               NextRep := now } := by
  unfold Card.CalcNextRepV2
  dsimp only
  rw [if_neg (by omega), if_neg (by omega), if_pos rfl]
  have hidx : c.Reps + 1 - 2 = c.Reps - 1 := by omega
  have hidx2 : c.Reps + 1 - 1 = c.Hardnesses.length := by omega
  rw [hidx, hidx2, getD_concat_length]

/-- Witness for C4 on a concrete card about to get its 3rd review. -/
theorem claim4_hardness5_immediate_witness :
    ((⟨0, "p", "a", 2, 0, [7 / 4, 7 / 4], [2, 2]⟩ : Card).CalcNextRepV2 0 5) =
      ⟨0, "p", "a", 3, 0,
        [7 / 4, 7 / 4] ++ [calcEf (([7 / 4, 7 / 4] : List Rat).getD 1 0) 5],
        [2, 2] ++ [5]⟩ :=
  claim4_hardness5_immediate 0 ⟨0, "p", "a", 2, 0, [7 / 4, 7 / 4], [2, 2]⟩
    (by norm_num) rfl rfl

/-- C1 (amended): the due offset on a 3rd-or-later review is computed by the
recursion `I(1) = 1`, `I(2) = 6` (not 4: only the 2nd review itself is
scheduled 4 days out), `I(n) = I(n-1) * easiness_history[n-1]` with the
just-appended easiness; for a 3rd review with hardness 3 the appended
easiness is 1.61 (= 161/100) and the due offset is `6 * 1.61 = 9.66`
(= 966/100) days. -/
theorem claim1_third_review_interval :
    (∀ c : Card, c.interval 1 = 1 ∧ c.interval 2 = 6 ∧
      ∀ n, 3 ≤ n → c.interval n = c.interval (n - 1) * c.EFs.getD (n - 1) 0) ∧
    (∀ (now : Rat) (h : Int) (c : Card), 2 ≤ c.Reps → c.EFs.length = c.Reps →
      c.Hardnesses.length = c.Reps →
      (c.CalcNextRep now h).EFs = c.EFs ++ [calcEf (c.EFs.getD (c.Reps - 1) 0) h] ∧
      (c.CalcNextRep now h).NextRep =
        now + 86400 * (c.CalcNextRep now h).interval (c.Reps + 1)) ∧
    (∀ now : Rat,
      ((⟨0, "p", "a", 2, 0, [7 / 4, 7 / 4], [2, 2]⟩ : Card).CalcNextRep now 3).EFs
          = [7 / 4, 7 / 4, 161 / 100] ∧
      ((⟨0, "p", "a", 2, 0, [7 / 4, 7 / 4], [2, 2]⟩ : Card).CalcNextRep now 3).NextRep
          = now + 86400 * (966 / 100)) := by
  refine ⟨?_, ?_, ?_⟩
  · intro c
    refine ⟨rfl, rfl, ?_⟩
    intro n h3
    obtain ⟨m, rfl⟩ : ∃ m, n = m + 3 := ⟨n - 3, by omega⟩
    have : m + 3 - 1 = m + 2 := by omega
    rw [this, Card.interval]
  · intro now h c h2 hef hh
    unfold Card.CalcNextRep
    dsimp only
    rw [if_neg (by omega), if_neg (by omega)]
    have hidx : c.Reps + 1 - 2 = c.Reps - 1 := by omega
    have hidx2 : c.Reps + 1 - 1 = c.Hardnesses.length := by omega
    rw [hidx, hidx2, getD_concat_length]
    refine ⟨rfl, ?_⟩
    dsimp only
    exact congrArg (fun x => now + 86400 * x) (interval_congr (c.Reps + 1) _ _ rfl)
  · intro now
    constructor
    · norm_num [Card.CalcNextRep, calcEf]
    · norm_num [Card.CalcNextRep, calcEf, Card.interval]

/-- Witness for C1 at a concrete 3rd review with hardness 3. -/
theorem claim1_third_review_interval_witness :
    ((⟨0, "p", "a", 2, 0, [7 / 4, 7 / 4], [2, 2]⟩ : Card).CalcNextRep 0 3).EFs
        = [7 / 4, 7 / 4] ++ [calcEf (([7 / 4, 7 / 4] : List Rat).getD 1 0) 3] ∧
    ((⟨0, "p", "a", 2, 0, [7 / 4, 7 / 4], [2, 2]⟩ : Card).CalcNextRep 0 3).NextRep
        = 0 + 86400 * ((⟨0, "p", "a", 2, 0, [7 / 4, 7 / 4], [2, 2]⟩ : Card).CalcNextRep 0 3).interval 3 :=
  claim1_third_review_interval.2.1 0 3 ⟨0, "p", "a", 2, 0, [7 / 4, 7 / 4], [2, 2]⟩
    (by norm_num) rfl rfl

/-- Counterexample to C1 as stated: on the 3rd review with hardness 3 the
appended easiness is 1.61 as claimed, but the due offset is
`interval(3) = 6 * 1.61 = 9.66` days, not the claimed `4 * 1.61 = 6.44`. -/
theorem claim1_counterexample :
    ((⟨0, "p", "a", 2, 0, [7 / 4, 7 / 4], [2, 2]⟩ : Card).CalcNextRep 0 3).EFs.getLast?
        = some (161 / 100) ∧
    ((⟨0, "p", "a", 2, 0, [7 / 4, 7 / 4], [2, 2]⟩ : Card).CalcNextRep 0 3).NextRep
        = 0 + 86400 * (966 / 100) ∧
    (0 + 86400 * (966 / 100) : Rat) ≠ 0 + 86400 * (644 / 100) := by
  refine ⟨?_, ?_, by norm_num⟩
  · norm_num [Card.CalcNextRep, calcEf]
  · norm_num [Card.CalcNextRep, calcEf, Card.interval]

/-- C3 (evidence of the code bug): a store whose single card has
`reps = 2` but no history rows loads successfully — the card comes back
with empty histories instead of `OpenDeck` failing with the
"no easiness factors" error, because `DB.Query` on an empty result set
does not return `sql.ErrNoRows`. -/
theorem claim3_missing_history_loads :
    openStore "deck.db" ⟨[⟨1, "p", "a", 2, 100⟩], [], []⟩ =
      .ok ⟨"deck.db", [⟨0, "p", "a", 2, ((100 : Int) : Rat), [], []⟩], false⟩ := rfl

theorem deleteFirst_eq_none (id : Int) :
    ∀ l : List Card, (∀ c ∈ l, c.Id ≠ id) → deleteFirst id l = none := by
  intro l
  induction l with
  | nil => intro _; rfl
  | cons c cs ih =>
    intro h
    unfold deleteFirst
    rw [if_neg (h c (List.mem_cons_self c cs)), ih (fun x hx => h x (List.mem_cons_of_mem c hx))]
    rfl

theorem deleteFirst_append (id : Int) (c : Card) (post : List Card) (hc : c.Id = id) :
    ∀ pre : List Card, (∀ p ∈ pre, p.Id ≠ id) →
      deleteFirst id (pre ++ c :: post) = some (pre ++ post) := by
  intro pre
  induction pre with
  | nil =>
    intro _
    simp only [List.nil_append]
    unfold deleteFirst
    rw [if_pos hc]
  | cons p ps ih =>
    intro h
    simp only [List.cons_append]
    unfold deleteFirst
    rw [if_neg (h p (List.mem_cons_self p ps)),
      ih (fun x hx => h x (List.mem_cons_of_mem p hx))]
    rfl

/-- C9: `DeleteCard` is a silent no-op (cards, dirty flag and path all
unchanged) when no card has the id, and otherwise removes exactly the first
matching card, keeps the rest in order, and marks the deck dirty. -/
theorem claim9_deleteCard (d : Deck) (id : Int) :
    ((∀ c ∈ d.Cards, c.Id ≠ id) → d.DeleteCard id = d) ∧
    (∀ pre c post, d.Cards = pre ++ c :: post → (∀ p ∈ pre, p.Id ≠ id) → c.Id = id →
      (d.DeleteCard id).Cards = pre ++ post ∧ (d.DeleteCard id).Dirty = true ∧
      (d.DeleteCard id).Path = d.Path) := by
  constructor
  · intro h
    unfold Deck.DeleteCard
    rw [deleteFirst_eq_none id d.Cards h]
  · intro pre c post hsplit hpre hc
    unfold Deck.DeleteCard
    rw [hsplit, deleteFirst_append id c post hc pre hpre]
    exact ⟨rfl, rfl, rfl⟩

/-- Witness for C9: deleting an absent id 5 leaves a concrete deck (dirty
flag included) untouched; deleting id 0 removes just the first card. -/
theorem claim9_deleteCard_witness :
    ((⟨"d", [⟨0, "p", "a", 0, 0, [], []⟩, ⟨1, "q", "b", 0, 0, [], []⟩], false⟩ : Deck).DeleteCard 5
        = ⟨"d", [⟨0, "p", "a", 0, 0, [], []⟩, ⟨1, "q", "b", 0, 0, [], []⟩], false⟩) ∧
    ((⟨"d", [⟨0, "p", "a", 0, 0, [], []⟩, ⟨1, "q", "b", 0, 0, [], []⟩], false⟩ : Deck).DeleteCard 0).Cards
        = [] ++ [⟨1, "q", "b", 0, 0, [], []⟩] ∧
    ((⟨"d", [⟨0, "p", "a", 0, 0, [], []⟩, ⟨1, "q", "b", 0, 0, [], []⟩], false⟩ : Deck).DeleteCard 0).Dirty
        = true :=
  ⟨(claim9_deleteCard ⟨"d", [⟨0, "p", "a", 0, 0, [], []⟩, ⟨1, "q", "b", 0, 0, [], []⟩], false⟩ 5).1
      (by intro c hc; rcases List.mem_cons.mp hc with rfl | hc
          · exact by norm_num
          · rcases List.mem_singleton.mp hc with rfl; exact by norm_num),
    ((claim9_deleteCard ⟨"d", [⟨0, "p", "a", 0, 0, [], []⟩, ⟨1, "q", "b", 0, 0, [], []⟩], false⟩ 0).2
      [] ⟨0, "p", "a", 0, 0, [], []⟩ [⟨1, "q", "b", 0, 0, [], []⟩] rfl
      (by intro p hp; cases hp) rfl).1,
    ((claim9_deleteCard ⟨"d", [⟨0, "p", "a", 0, 0, [], []⟩, ⟨1, "q", "b", 0, 0, [], []⟩], false⟩ 0).2
      [] ⟨0, "p", "a", 0, 0, [], []⟩ [⟨1, "q", "b", 0, 0, [], []⟩] rfl
      (by intro p hp; cases hp) rfl).2.1⟩

theorem sorted_le_getLast (l : List Int) :
    l.Sorted (· ≤ ·) → ∀ m, l.getLast? = some m → ∀ x ∈ l, x ≤ m := by
  induction l with
  | nil => intro _ m hm; cases hm
  | cons a rest ih =>
    intro hs m hm x hx
    cases rest with
    | nil =>
      rw [List.getLast?_singleton] at hm
      rw [List.mem_singleton.mp hx, Option.some.inj hm]
    | cons b rest2 =>
      rw [List.getLast?_cons_cons] at hm
      have hs' : (b :: rest2).Sorted (· ≤ ·) := hs.of_cons
      rcases List.mem_cons.mp hx with rfl | hx2
      · have hb : b ≤ m := ih hs' m hm b (List.mem_cons_self b rest2)
        have hab : x ≤ b := (List.sorted_cons.mp hs).1 b (List.mem_cons_self b rest2)
        exact le_trans hab hb
      · exact ih hs' m hm x hx2

theorem getLast?_map_id : ∀ l : List Card, (l.map (·.Id)).getLast? = l.getLast?.map (·.Id)
  | [] => rfl
  | [_] => rfl
  | a :: b :: l => by
    rw [List.map_cons, List.map_cons, List.getLast?_cons_cons, List.getLast?_cons_cons,
      ← List.map_cons]
    exact getLast?_map_id (b :: l)

/-- C7 (amended): `AddCard` assigns id 0 on an empty deck and otherwise the
id of the *last* card in the current in-memory ordering plus 1, appends the
card and marks the deck dirty; on decks whose ids appear in nondecreasing
order (as every deck produced through the API does) the last id is also the
maximum id present, so the assigned id is then the maximum plus 1. -/
theorem claim7_addCard (d : Deck) (c : Card) :
    (d.Cards = [] → d.AddCard c = { d with Cards := [{ c with Id := 0 }], Dirty := true }) ∧
    (∀ last, d.Cards.getLast? = some last →
      d.AddCard c = { d with Cards := d.Cards ++ [{ c with Id := last.Id + 1 }],
                             Dirty := true }) ∧
    (∀ last, d.Cards.getLast? = some last → (d.Cards.map (·.Id)).Sorted (· ≤ ·) →
      ∀ x ∈ d.Cards, x.Id ≤ last.Id) := by
  refine ⟨?_, ?_, ?_⟩
  · intro h
    unfold Deck.AddCard
    rw [h]
    rfl
  · intro last hl
    unfold Deck.AddCard
    rw [hl]
  · intro last hl hs x hx
    refine sorted_le_getLast (d.Cards.map (·.Id)) hs last.Id ?_ x.Id
      (List.mem_map_of_mem (·.Id) hx)
    rw [getLast?_map_id, hl]
    rfl

/-- Witness for C7 on concrete decks: id 0 on an empty deck, last id + 1
(here 3 + 1 = 4) on a sorted two-card deck, whose last id bounds all ids. -/
theorem claim7_addCard_witness :
    ((⟨"d", [], false⟩ : Deck).AddCard ⟨9, "r", "c", 0, 0, [], []⟩
        = ⟨"d", [⟨0, "r", "c", 0, 0, [], []⟩], true⟩) ∧
    ((⟨"d", [⟨0, "p", "a", 0, 0, [], []⟩, ⟨3, "q", "b", 0, 0, [], []⟩], false⟩ : Deck).AddCard
        ⟨9, "r", "c", 0, 0, [], []⟩
        = ⟨"d", [⟨0, "p", "a", 0, 0, [], []⟩, ⟨3, "q", "b", 0, 0, [], []⟩]
            ++ [⟨4, "r", "c", 0, 0, [], []⟩], true⟩) ∧
    (∀ x ∈ (⟨"d", [⟨0, "p", "a", 0, 0, [], []⟩, ⟨3, "q", "b", 0, 0, [], []⟩], false⟩ : Deck).Cards,
      x.Id ≤ 3) :=
  ⟨(claim7_addCard ⟨"d", [], false⟩ ⟨9, "r", "c", 0, 0, [], []⟩).1 rfl,
    (claim7_addCard ⟨"d", [⟨0, "p", "a", 0, 0, [], []⟩, ⟨3, "q", "b", 0, 0, [], []⟩], false⟩
      ⟨9, "r", "c", 0, 0, [], []⟩).2.1 ⟨3, "q", "b", 0, 0, [], []⟩ rfl,
    (claim7_addCard ⟨"d", [⟨0, "p", "a", 0, 0, [], []⟩, ⟨3, "q", "b", 0, 0, [], []⟩], false⟩
      ⟨9, "r", "c", 0, 0, [], []⟩).2.2 ⟨3, "q", "b", 0, 0, [], []⟩ rfl (by decide)⟩

/-- Counterexample to C7 as stated: on a deck whose in-memory order is
ids [1, 0], `AddCard` assigns last-id + 1 = 1 (an id collision), not the
claimed maximum-id + 1 = 2. -/
theorem claim7_counterexample :
    ((⟨"d", [⟨1, "p", "a", 0, 0, [], []⟩, ⟨0, "q", "b", 0, 0, [], []⟩], false⟩ : Deck).AddCard
        ⟨7, "r", "c", 0, 0, [], []⟩).Cards.map (·.Id) = [1, 0, 1] ∧
    ([(1 : Int), 0].foldr max 0 + 1 = 2) ∧ ((1 : Int) ≠ 2) :=
  ⟨rfl, by decide, by decide⟩

theorem loadCard_eq (st : Store) (row : CardRow) :
    loadCard st row = .ok (pureLoad st row) := rfl

theorem loadCards_eq (st : Store) : ∀ (rows : List CardRow) (d : Deck),
    loadCards st d rows =
      .ok (rows.foldl (fun dd row => dd.AddCard (pureLoad st row)) d) := by
  intro rows
  induction rows with
  | nil => intro d; rfl
  | cons row rest ih =>
    intro d
    rw [loadCards, loadCard_eq]
    exact ih _

theorem rangeIds_succ (n : Nat) : rangeIds (n + 1) = rangeIds n ++ [Int.ofNat n] := by
  simp [rangeIds, List.range_succ]

theorem addCard_ids (d : Deck) (c : Card)
    (h : d.Cards.map (·.Id) = rangeIds d.Cards.length) :
    (d.AddCard c).Cards.map (·.Id) = rangeIds (d.Cards.length + 1) ∧
    (d.AddCard c).Cards.length = d.Cards.length + 1 := by
  unfold Deck.AddCard
  cases hcl : d.Cards.getLast? with
  | none =>
    have hnil : d.Cards = [] := List.getLast?_eq_none_iff.mp hcl
    rw [hnil]
    refine ⟨?_, rfl⟩
    simp [rangeIds, List.range_succ]
  | some last =>
    have hne : d.Cards ≠ [] := by
      intro hnil
      rw [hnil] at hcl
      cases hcl
    obtain ⟨m, hm⟩ : ∃ m, d.Cards.length = m + 1 :=
      ⟨d.Cards.length - 1, by have := List.length_pos.mpr hne; omega⟩
    have hlast : last.Id = Int.ofNat m := by
      have h1 : (d.Cards.map (·.Id)).getLast? = some last.Id := by
        rw [getLast?_map_id, hcl]
        rfl
      rw [h, hm, rangeIds_succ, List.getLast?_concat] at h1
      exact (Option.some.inj h1).symm
    constructor
    · rw [List.map_append, h, hm, rangeIds_succ (m + 1)]
      congr 1
      simp only [List.map_cons, List.map_nil]
      rw [hlast]
      rfl
    · simp

theorem foldl_addCard_ids (st : Store) : ∀ (rows : List CardRow) (d : Deck),
    d.Cards.map (·.Id) = rangeIds d.Cards.length →
    (rows.foldl (fun dd row => dd.AddCard (pureLoad st row)) d).Cards.map (·.Id) =
      rangeIds (rows.foldl (fun dd row => dd.AddCard (pureLoad st row)) d).Cards.length := by
  intro rows
  induction rows with
  | nil => intro d h; exact h
  | cons row rest ih =>
    intro d h
    simp only [List.foldl_cons]
    obtain ⟨h1, h2⟩ := addCard_ids d (pureLoad st row) h
    refine ih _ ?_
    rw [h1, h2]

/-- C10: a successful `OpenDeck` on a store yields cards whose ids are
consecutive 0, 1, 2, ... in load order, whatever id values the store held,
because every loaded card goes through `AddCard`, which overwrites the
stored id with a position-derived one. -/
theorem claim10_open_reassigns_ids (path : String) (st : Store) (d : Deck)
    (h : openStore path st = .ok d) :
    d.Cards.map (·.Id) = rangeIds d.Cards.length ∧
    ∀ (i : Nat) (hi : i < d.Cards.length), (d.Cards.get ⟨i, hi⟩).Id = Int.ofNat i := by
  have hids : d.Cards.map (·.Id) = rangeIds d.Cards.length := by
    unfold openStore at h
    rw [loadCards_eq] at h
    cases h
    exact foldl_addCard_ids st (queryCards st) { Path := path, Cards := [], Dirty := false } rfl
  refine ⟨hids, ?_⟩
  intro i hi
  have h1 : (d.Cards.map (·.Id))[i]? = (rangeIds d.Cards.length)[i]? := by rw [hids]
  rw [List.getElem?_map, List.getElem?_eq_getElem hi] at h1
  have h2 : (rangeIds d.Cards.length)[i]? = some (Int.ofNat i) := by
    simp [rangeIds, List.getElem?_map, List.getElem?_range, hi]
  rw [h2] at h1
  simpa [List.get_eq_getElem] using Option.some.inj h1

/-- Witness for C10: a store whose rows carry ids 7 and 3 (and are out of
due-date order) loads as cards with ids 0 and 1. -/
theorem claim10_open_reassigns_ids_witness :
    (((⟨"p.db", [⟨0, "b", "y", 0, ((10 : Int) : Rat), [], []⟩,
        ⟨1, "a", "x", 0, ((50 : Int) : Rat), [], []⟩], false⟩ : Deck)).Cards.get
      ⟨1, by norm_num⟩).Id = Int.ofNat 1 :=
  (claim10_open_reassigns_ids "p.db" ⟨[⟨7, "a", "x", 0, 50⟩, ⟨3, "b", "y", 0, 10⟩], [], []⟩
    ⟨"p.db", [⟨0, "b", "y", 0, ((10 : Int) : Rat), [], []⟩,
      ⟨1, "a", "x", 0, ((50 : Int) : Rat), [], []⟩], false⟩ rfl).2 1 (by norm_num)

theorem fsUpdate_other (fs : FSys) (path q : String) (st : Store) (h : q ≠ path) :
    fsUpdate fs path st q = fs q := by
  unfold fsUpdate
  rw [if_neg h]

theorem path_ne_sync (s : String) : s ≠ s ++ ".sync" := by
  intro h
  have hlen := congrArg String.length h
  rw [String.length_append] at hlen
  have h5 : (".sync" : String).length = 5 := by decide
  omega

theorem OpenDeck_congr (fs₁ fs₂ : FSys) (path : String) (h : fs₁ path = fs₂ path) :
    (OpenDeck fs₁ path).1 = (OpenDeck fs₂ path).1 := by
  unfold OpenDeck
  rw [h]
  cases fs₂ path <;> rfl

/-- C5: if `Sync` fails while creating the temporary store, creating the
schema, or performing any insert, the error is returned before the swap and
the durable file at `deck.Path` is byte-for-byte what it was, so opening
that path still yields the pre-sync deck. -/
theorem claim5_sync_write_failure (o : List Bool) (fs : FSys) (d : Deck) (e : SyncErr)
    (herr : (sync o fs d).1 = .error e)
    (hw : e = .openDb ∨ e = .schema ∨ e = .insert) :
    (sync o fs d).2.1 d.Path = fs d.Path ∧
    (OpenDeck ((sync o fs d).2.1) d.Path).1 = (OpenDeck fs d.Path).1 := by
  suffices hfs : (sync o fs d).2.1 d.Path = fs d.Path by
    exact ⟨hfs, OpenDeck_congr _ _ _ hfs⟩
  unfold sync at herr ⊢
  dsimp only at herr ⊢
  by_cases h0 : (opFails o).1 = true
  · rw [if_pos h0]
  · rw [if_neg h0] at herr ⊢
    by_cases h1 : (opFails (opFails o).2).1 = true
    · rw [if_pos h1]
    · rw [if_neg h1] at herr ⊢
      cases hww : writePhase (opFails (opFails o).2).2 emptyStore d.Cards with
      | error r =>
        exact fsUpdate_other fs (d.Path ++ ".sync") d.Path r.1 (path_ne_sync d.Path)
      | ok s =>
        -- the write phase succeeded, so the returned error comes from the
        -- swap phase (or the run succeeded), contradicting `hw`
        exfalso
        rw [hww] at herr
        dsimp only at herr
        split_ifs at herr <;> rcases hw with rfl | rfl | rfl <;> simp at herr

/-- Witness for C5: with the second operation (the schema `Exec`) failing,
`Sync` on a one-card deck reports the schema error and the file at the
deck's path is unchanged. -/
theorem claim5_sync_write_failure_witness :
    (sync [false, true]
        (fun q => if q = "deck.db" then some emptyStore else none)
        ⟨"deck.db", [⟨0, "p", "a", 0, 0, [], []⟩], true⟩).2.1 "deck.db" =
      (fun q => if q = "deck.db" then some emptyStore else none : FSys) "deck.db" ∧
    (OpenDeck ((sync [false, true]
        (fun q => if q = "deck.db" then some emptyStore else none)
        ⟨"deck.db", [⟨0, "p", "a", 0, 0, [], []⟩], true⟩).2.1) "deck.db").1 =
      (OpenDeck (fun q => if q = "deck.db" then some emptyStore else none) "deck.db").1 :=
  claim5_sync_write_failure [false, true]
    (fun q => if q = "deck.db" then some emptyStore else none)
    ⟨"deck.db", [⟨0, "p", "a", 0, 0, [], []⟩], true⟩ .schema rfl (Or.inr (Or.inl rfl))


theorem foldl_insertEf (id : Int) : ∀ (xs : List Rat) (st : Store),
    xs.foldl (fun s ef => s.insertEf id ef) st =
      { st with efs := st.efs ++ histBlock id st.efs.length xs } := by
  intro xs
  induction xs with
  | nil => intro st; simp [histBlock]
  | cons x xs ih =>
    intro st
    rw [List.foldl_cons, ih]
    unfold Store.insertEf
    simp [histBlock, List.length_append]

theorem foldl_insertHardness (id : Int) : ∀ (xs : List Int) (st : Store),
    xs.foldl (fun s h => s.insertHardness id h) st =
      { st with hardnesses := st.hardnesses ++ histBlock id st.hardnesses.length xs } := by
  intro xs
  induction xs with
  | nil => intro st; simp [histBlock]
  | cons x xs ih =>
    intro st
    rw [List.foldl_cons, ih]
    unfold Store.insertHardness
    simp [histBlock, List.length_append]

theorem histBlock_length {α : Type} (id : Int) : ∀ (k : Nat) (xs : List α),
    (histBlock id k xs).length = xs.length := by
  intro k xs
  induction xs generalizing k with
  | nil => rfl
  | cons x xs ih => simp [histBlock, ih]

theorem syncCard_eq (st : Store) (c : Card) :
    syncCard st c =
      ⟨st.cards ++ [⟨(st.cards.length : Int) + 1, c.Prompt, c.Answer, c.Reps, c.NextRep.floor⟩],
        st.efs ++ histBlock ((st.cards.length : Int) + 1) st.efs.length c.EFs,
        st.hardnesses ++ histBlock ((st.cards.length : Int) + 1) st.hardnesses.length c.Hardnesses⟩ := by
  unfold syncCard Store.insertCard
  dsimp only
  rw [foldl_insertEf, foldl_insertHardness]

theorem rowsFrom_length : ∀ (cs : List Card) (k : Nat), (rowsFrom k cs).length = cs.length := by
  intro cs
  induction cs with
  | nil => intro k; rfl
  | cons c cs ih => intro k; simp [rowsFrom, ih]

theorem foldl_syncCard_eq : ∀ (cs : List Card) (st : Store),
    cs.foldl syncCard st =
      ⟨st.cards ++ rowsFrom (st.cards.length + 1) cs,
        st.efs ++ histApp (fun c => c.EFs) st.cards.length st.efs.length cs,
        st.hardnesses ++ histApp (fun c => c.Hardnesses) st.cards.length st.hardnesses.length cs⟩ := by
  intro cs
  induction cs with
  | nil => intro st; simp [rowsFrom, histApp]
  | cons c cs ih =>
    intro st
    rw [List.foldl_cons, syncCard_eq, ih]
    dsimp only
    rw [List.length_append, List.length_append, List.length_append]
    simp only [List.length_singleton, histBlock_length]
    simp only [rowsFrom, histApp, List.append_assoc, List.cons_append, List.nil_append]
    push_cast
    rfl

theorem syncStore_eq (cs : List Card) :
    syncStore cs =
      ⟨rowsFrom 1 cs, histApp (fun c => c.EFs) 0 0 cs,
        histApp (fun c => c.Hardnesses) 0 0 cs⟩ := by
  unfold syncStore emptyStore
  rw [foldl_syncCard_eq]
  rfl


theorem filter_histBlock_self {α : Type} (i j : Int) (hij : i = j) :
    ∀ (k : Nat) (xs : List α),
      (histBlock i k xs).filter (fun r => r.card_id = j) = histBlock i k xs := by
  intro k xs
  induction xs generalizing k with
  | nil => rfl
  | cons x xs ih =>
    simp only [histBlock, List.filter_cons]
    rw [if_pos (by simpa using hij)]
    rw [ih]

theorem filter_histBlock_ne {α : Type} (i j : Int) (hij : i ≠ j) :
    ∀ (k : Nat) (xs : List α),
      (histBlock i k xs).filter (fun r => r.card_id = j) = [] := by
  intro k xs
  induction xs generalizing k with
  | nil => rfl
  | cons x xs ih =>
    simp only [histBlock, List.filter_cons]
    rw [if_neg (by simpa using hij)]
    exact ih (k + 1)

theorem map_val_histBlock {α : Type} (i : Int) : ∀ (k : Nat) (xs : List α),
    (histBlock i k xs).map (fun r => r.val) = xs := by
  intro k xs
  induction xs generalizing k with
  | nil => rfl
  | cons x xs ih => simp [histBlock, ih]

theorem histApp_filter_le {α : Type} (sel : Card → List α) :
    ∀ (cs : List Card) (cid k : Nat) (j : Int), j ≤ (cid : Int) →
      (histApp sel cid k cs).filter (fun r => r.card_id = j) = [] := by
  intro cs
  induction cs with
  | nil => intro cid k j _; rfl
  | cons c cs ih =>
    intro cid k j hj
    simp only [histApp, List.filter_append]
    rw [filter_histBlock_ne _ j (by omega)]
    rw [ih (cid + 1) (k + (sel c).length) j (by push_cast; omega)]
    rfl

theorem histApp_filter_get {α : Type} (sel : Card → List α) :
    ∀ (cs : List Card) (cid k : Nat) (i : Nat) (hi : i < cs.length),
      ((histApp sel cid k cs).filter
          (fun r => r.card_id = ((cid + i + 1 : Nat) : Int))).map (fun r => r.val)
        = sel (cs.get ⟨i, hi⟩) := by
  intro cs
  induction cs with
  | nil => intro cid k i hi; cases hi
  | cons c cs ih =>
    intro cid k i hi
    cases i with
    | zero =>
      simp only [histApp, List.filter_append, List.map_append]
      rw [filter_histBlock_self ((cid : Int) + 1) _ (by push_cast; ring), map_val_histBlock]
      rw [histApp_filter_le sel cs (cid + 1) _ _ (by push_cast; omega)]
      simp
    | succ i =>
      have hi' : i < cs.length := by simpa using hi
      simp only [histApp, List.filter_append, List.map_append]
      rw [filter_histBlock_ne ((cid : Int) + 1) _ (by push_cast; omega)]
      have hcast : ((cid + (i + 1) + 1 : Nat) : Int) = (((cid + 1) + i + 1 : Nat) : Int) := by
        push_cast
        ring
      rw [hcast, ih (cid + 1) (k + (sel c).length) i hi']
      simp


theorem rowsFrom_map_load (st : Store) : ∀ (cs : List Card) (k : Nat),
    (∀ (i : Nat) (hi : i < cs.length),
        (st.efs.filter (fun r => r.card_id = ((k + i + 1 : Nat) : Int))).map (fun r => r.val)
            = (cs.get ⟨i, hi⟩).EFs ∧
        (st.hardnesses.filter (fun r => r.card_id = ((k + i + 1 : Nat) : Int))).map (fun r => r.val)
            = (cs.get ⟨i, hi⟩).Hardnesses) →
    (rowsFrom (k + 1) cs).map (fun row => stripId (pureLoad st row))
        = cs.map (fun c => stripId (reload c)) := by
  intro cs
  induction cs with
  | nil => intro k _; rfl
  | cons c cs ih =>
    intro k h
    simp only [rowsFrom, List.map_cons]
    congr 1
    · have h0 := h 0 (by simp)
      unfold pureLoad stripId reload
      dsimp only
      rw [h0.1, h0.2]
      rfl
    · refine ih (k + 1) ?_
      intro i hi
      have hcast : ((k + 1) + i + 1 : Nat) = (k + (i + 1) + 1 : Nat) := by omega
      rw [hcast]
      exact h (i + 1) (by simpa using hi)

theorem addCard_cards_strip (d : Deck) (c : Card) :
    (d.AddCard c).Cards.map stripId = d.Cards.map stripId ++ [stripId c] := by
  unfold Deck.AddCard
  cases d.Cards.getLast? <;> simp [stripId]

theorem foldl_addCard_strip (st : Store) : ∀ (rows : List CardRow) (d : Deck),
    ((rows.foldl (fun dd row => dd.AddCard (pureLoad st row)) d).Cards).map stripId
      = d.Cards.map stripId ++ rows.map (fun row => stripId (pureLoad st row)) := by
  intro rows
  induction rows with
  | nil => intro d; simp
  | cons row rest ih =>
    intro d
    rw [List.foldl_cons, ih, addCard_cards_strip]
    simp


theorem fsUpdate_self (fs : FSys) (path : String) (st : Store) :
    fsUpdate fs path st path = some st := by
  unfold fsUpdate
  rw [if_pos rfl]

theorem insertHistList_nil {α : Type} (ins : Store → Int → α → Store) (id : Int) :
    ∀ (xs : List α) (st : Store),
      insertHistList ins id [] st xs = .ok (xs.foldl (fun s x => ins s id x) st, []) := by
  intro xs
  induction xs with
  | nil => intro st; rfl
  | cons x xs ih =>
    intro st
    simp only [insertHistList, opFails]
    rw [if_neg Bool.false_ne_true, ih]
    rfl

theorem writePhase_nil : ∀ (cs : List Card) (st : Store),
    writePhase [] st cs = .ok (cs.foldl syncCard st, []) := by
  intro cs
  induction cs with
  | nil => intro st; rfl
  | cons c cs ih =>
    intro st
    simp only [writePhase, opFails]
    rw [if_neg Bool.false_ne_true]
    rw [if_neg Bool.false_ne_true]
    rw [insertHistList_nil]
    dsimp only
    rw [insertHistList_nil]
    dsimp only
    rw [ih]
    rfl

theorem sync_nofault (fs : FSys) (d : Deck) (st0 : Store) (hex : fs d.Path = some st0) :
    (sync [] fs d).1 = .ok () ∧
    (sync [] fs d).2.1 d.Path = some (syncStore d.Cards) ∧
    (sync [] fs d).2.2 = { d with Dirty := false } := by
  have hup : fsUpdate fs (d.Path ++ ".sync") (d.Cards.foldl syncCard emptyStore) d.Path
      = some st0 := by
    rw [fsUpdate_other _ _ _ _ (path_ne_sync d.Path), hex]
  unfold sync
  simp only [opFails]
  rw [if_neg Bool.false_ne_true]
  rw [if_neg Bool.false_ne_true]
  rw [writePhase_nil]
  dsimp only
  rw [if_neg (by rw [hup]; simp)]
  rw [if_neg Bool.false_ne_true, if_neg Bool.false_ne_true]
  refine ⟨rfl, ?_, rfl⟩
  exact fsUpdate_self _ d.Path _


/-- C2 (amended): syncing a deck (whose file exists) and reopening the same
path succeeds and reproduces the same set of cards — same prompts, answers,
repetition counts, `next_due` to the second, and full easiness/hardness
histories in their original per-card order — but with the ids reassigned
consecutively 0, 1, 2, ... in load order (sorted by `next_due`) instead of
preserved. -/
theorem claim2_sync_open_roundtrip (fs : FSys) (d : Deck) (st0 : Store)
    (hex : fs d.Path = some st0) :
    ∃ d' : Deck,
      (sync [] fs d).1 = .ok () ∧
      (OpenDeck ((sync [] fs d).2.1) d.Path).1 = .ok d' ∧
      (d'.Cards.map stripId).Perm (d.Cards.map (fun c => stripId (reload c))) ∧
      d'.Cards.map (fun c => c.Id) = rangeIds d.Cards.length := by
  obtain ⟨hok, hfs, -⟩ := sync_nofault fs d st0 hex
  have hcards : (syncStore d.Cards).cards = rowsFrom 1 d.Cards := by
    rw [syncStore_eq]
  have hefs : (syncStore d.Cards).efs = histApp (fun c => c.EFs) 0 0 d.Cards := by
    rw [syncStore_eq]
  have hhs : (syncStore d.Cards).hardnesses
      = histApp (fun c => c.Hardnesses) 0 0 d.Cards := by
    rw [syncStore_eq]
  have hopen : (OpenDeck ((sync [] fs d).2.1) d.Path).1
      = openStore d.Path (syncStore d.Cards) := by
    unfold OpenDeck
    rw [hfs]
  have hload : openStore d.Path (syncStore d.Cards) =
      .ok { ((queryCards (syncStore d.Cards)).foldl
              (fun (dd : Deck) (row : CardRow) => dd.AddCard (pureLoad (syncStore d.Cards) row))
              ({ Path := d.Path, Cards := [], Dirty := false } : Deck)) with
            Dirty := false } := by
    unfold openStore
    rw [loadCards_eq]
  have hmapload : (rowsFrom (0 + 1) d.Cards).map
        (fun row => stripId (pureLoad (syncStore d.Cards) row))
      = d.Cards.map (fun c => stripId (reload c)) := by
    refine rowsFrom_map_load (syncStore d.Cards) d.Cards 0 ?_
    intro i hi
    constructor
    · rw [hefs]
      exact histApp_filter_get (fun c => c.EFs) d.Cards 0 0 i hi
    · rw [hhs]
      exact histApp_filter_get (fun c => c.Hardnesses) d.Cards 0 0 i hi
  have hstrip : (((queryCards (syncStore d.Cards)).foldl
        (fun (dd : Deck) (row : CardRow) => dd.AddCard (pureLoad (syncStore d.Cards) row))
        ({ Path := d.Path, Cards := [], Dirty := false } : Deck)).Cards).map stripId
      = (queryCards (syncStore d.Cards)).map
          (fun row => stripId (pureLoad (syncStore d.Cards) row)) := by
    rw [foldl_addCard_strip]
    rfl
  have hmapload1 : (rowsFrom 1 d.Cards).map
        (fun row => stripId (pureLoad (syncStore d.Cards) row))
      = d.Cards.map (fun c => stripId (reload c)) := hmapload
  have hq : queryCards (syncStore d.Cards)
      = List.insertionSort (fun a b : CardRow => a.nextrep ≤ b.nextrep)
          (rowsFrom 1 d.Cards) := by
    unfold queryCards
    rw [hcards]
  have hperm : ((queryCards (syncStore d.Cards)).map
        (fun row => stripId (pureLoad (syncStore d.Cards) row))).Perm
      (d.Cards.map (fun c => stripId (reload c))) := by
    rw [hq, ← hmapload1]
    exact (List.perm_insertionSort _ _).map _
  have hids := foldl_addCard_ids (syncStore d.Cards) (queryCards (syncStore d.Cards))
    { Path := d.Path, Cards := [], Dirty := false } rfl
  have hlen : ((queryCards (syncStore d.Cards)).foldl
        (fun (dd : Deck) (row : CardRow) => dd.AddCard (pureLoad (syncStore d.Cards) row))
        ({ Path := d.Path, Cards := [], Dirty := false } : Deck)).Cards.length
      = d.Cards.length := by
    have h2 := congrArg List.length hstrip
    rw [List.length_map, List.length_map] at h2
    rw [h2]
    show (List.insertionSort _ (syncStore d.Cards).cards).length = _
    rw [List.length_insertionSort, hcards, rowsFrom_length]
  refine ⟨_, hok, by rw [hopen, hload], ?_, ?_⟩
  · dsimp only
    rw [hstrip]
    exact hperm
  · dsimp only
    rw [← hlen]
    exact hids

/-- Witness for C2 on a concrete one-card deck whose file exists. -/
theorem claim2_sync_open_roundtrip_witness :
    ∃ d' : Deck,
      (sync [] (fun q => if q = "deck.db" then some emptyStore else none)
          ⟨"deck.db", [⟨5, "p", "a", 0, 100, [], []⟩], true⟩).1 = .ok () ∧
      (OpenDeck ((sync [] (fun q => if q = "deck.db" then some emptyStore else none)
          ⟨"deck.db", [⟨5, "p", "a", 0, 100, [], []⟩], true⟩).2.1) "deck.db").1 = .ok d' ∧
      (d'.Cards.map stripId).Perm
        (([⟨5, "p", "a", 0, 100, [], []⟩] : List Card).map (fun c => stripId (reload c))) ∧
      d'.Cards.map (fun c => c.Id) = rangeIds 1 :=
  claim2_sync_open_roundtrip (fun q => if q = "deck.db" then some emptyStore else none)
    ⟨"deck.db", [⟨5, "p", "a", 0, 100, [], []⟩], true⟩ emptyStore rfl

/-- Counterexample to C2 as stated: a synced-and-reloaded deck whose single
card had id 5 comes back with id 0 — everything round-trips except the ids,
which `AddCard` reassigns on load. -/
theorem claim2_counterexample :
    (sync [] (fun q => if q = "deck.db" then some emptyStore else none)
        ⟨"deck.db", [⟨5, "p", "a", 0, 100, [], []⟩], true⟩).1 = .ok () ∧
    (OpenDeck ((sync [] (fun q => if q = "deck.db" then some emptyStore else none)
        ⟨"deck.db", [⟨5, "p", "a", 0, 100, [], []⟩], true⟩).2.1) "deck.db").1 =
      .ok ⟨"deck.db", [⟨0, "p", "a", 0, ((100 : Int) : Rat), [], []⟩], false⟩ ∧
    ([⟨5, "p", "a", 0, 100, [], []⟩] : List Card).map (fun c => c.Id) = [5] ∧
    ([⟨0, "p", "a", 0, ((100 : Int) : Rat), [], []⟩] : List Card).map (fun c => c.Id) = [0] ∧
    ((5 : Int) ≠ 0) :=
  ⟨rfl, rfl, rfl, rfl, by decide⟩

end Vergessen
